import Mathlib

/-!
# Shallow embedding of the seldom_state per-entity transition engine

This file embeds the transition engine of the `seldom_state` crate
(`src/machine.rs`, `src/trigger.rs`, `src/state.rs`) and proves the behavioural
properties claimed of it.

Modelling conventions:

* `TypeId`s of state component types are `StateId := Nat`; entities are `Nat`.
* State data is tracked at the level of presence: `World.states e` is the list
  of state-component type ids attached to entity `e`.  Builders
  (`StateMachine::trans_builder`) are systems with output type `Next`; they
  produce the inserted value, which presence-level modelling does not track, so
  a transition is represented by its source filter (`Prev::matches`, the
  `fn(TypeId) -> bool` stored in `StateMachine::transitions`), its trigger
  check (`Trigger::check(...).into_result().is_ok()`), and the `TypeId` of its
  `Next` state.
* Every observable operation of a run (enqueueing an exit/enter hook, removing
  the outgoing state, inserting the new state) is appended to `World.trace` in
  program order, so ordering claims are claims about the trace.
* Messages produced with `error!` are collected in `World.errors`.
-/

/-- Entities are identified by index, standing for `bevy::ecs::entity::Entity`. -/
abbrev Entity := Nat

/-- Identity token of a state component type, standing for `std::any::TypeId`. -/
abbrev StateId := Nat

/-- Marker component from `src/trigger.rs`: `enum Done { Success, Failure }`. -/
inductive Done where
  | success
  | failure
deriving DecidableEq

/-- Observable engine operation, recorded in program order.  Hook events carry
the index of the hook in the machine's `on_exit`/`on_enter` list. -/
inductive Ev where
  | exitHook (e : Entity) (i : Nat)
  | removeState (e : Entity) (s : StateId)
  | insertState (e : Entity) (s : StateId)
  | enterHook (e : Entity) (i : Nat)
deriving DecidableEq

/-- Errors reported with `error!` in `StateMachine::run` (`machine.rs` lines
327 and 335): an entity in no known state, or in two known states (the second
error names the two offending states found). -/
inductive Err where
  | noState (e : Entity)
  | multipleStates (e : Entity) (s1 s2 : StateId)
deriving DecidableEq

/-- The world, restricted to the data the engine reads and writes. -/
structure World where
  states : Entity → List StateId
  dones : Entity → Option Done
  trace : List Ev
  errors : List Err

/-- Presence test `world.entity(entity).contains_type_id(state)`. -/
def attachedP (w : World) (e : Entity) : StateId → Bool :=
  fun s => (w.states e).contains s

/-- Effect of `entity.remove::<S>()` on the presence list. -/
def removeId (s : StateId) (l : List StateId) : List StateId :=
  l.filter (fun x => x != s)

/-- Effect of `entity.insert(next)` on the presence list: inserting a component
that is already present replaces its value, leaving presence unchanged. -/
def insertId (s : StateId) (l : List StateId) : List StateId :=
  if l.contains s then l else l ++ [s]

/-- One entry of `StateMachine::transitions`: the stored source filter
`Prev::matches : fn(TypeId) -> bool` together with the boxed
`TransitionImpl { trigger, builder, .. }`.  `check` is
`trigger.check(entity, world).into_result().is_ok()`; `nextId` is
`TypeId::of::<Next>()`.  The builder is a `System` with output type `Next`
(not `Option<Next>`): it is total, and at presence level it contributes only
`nextId`, the identity of the state it builds. -/
structure TransitionImpl where
  sourceMatches : StateId → Bool
  check : World → Entity → Bool
  nextId : StateId

/-- One entry of `StateMachine::on_exit` / `StateMachine::on_enter`: the two
stored filters `fn(TypeId) -> bool` (the boxed `OnEvent` payload itself is
opaque; a hook firing is recorded in the trace by its list index). -/
structure Hook where
  m1 : StateId → Bool
  m2 : StateId → Bool

/-- The `StateMachine` component (`machine.rs`).  `states` lists the keys of
the `TypeIdMap<StateMetadata>` in insertion order. -/
structure StateMachine where
  states : List StateId
  transitions : List TransitionImpl
  on_exit : List Hook
  on_enter : List Hook
  init_transitions : Bool
  log_transitions : Bool

/-- The `Default` impl for `StateMachine`. -/
def StateMachine.default : StateMachine :=
  { states := []
    transitions := []
    on_exit := []
    on_enter := []
    init_transitions := true
    log_transitions := false }

/-- Method `StateMachine::init_transitions`: if the dirty flag is set,
initialize every transition (trigger/builder initialization has no modelled
world effect) and clear the flag; otherwise return unchanged. -/
def StateMachine.initTrans (m : StateMachine) : StateMachine :=
  if m.init_transitions then { m with init_transitions := false } else m

/-- Iterator search that also returns the rest of the iterator, modelling
`states.find(..)` followed by a second `states.find(..)` on the same
iterator in `StateMachine::run`. -/
def findWithRest (p : StateId → Bool) : List StateId → Option (StateId × List StateId)
  | [] => none
  | s :: rest => if p s then some (s, rest) else findWithRest p rest

/-- Selection loop of `StateMachine::run`:
`self.transitions.iter_mut().filter(|(matches, _)| matches(current)).find_map(|(_, t)| t.check(world, entity))`,
returning the first transition (with its registration index) whose source
filter accepts `current` and whose trigger check succeeds. -/
def selectIdxAux (w : World) (e : Entity) (current : StateId) :
    Nat → List TransitionImpl → Option (Nat × TransitionImpl)
  | _, [] => none
  | k, t :: ts =>
    if t.sourceMatches current && t.check w e then some (k, t)
    else selectIdxAux w e current (k + 1) ts

/-- Selection over the whole transition list, starting at index 0. -/
def selectIdx (w : World) (e : Entity) (current : StateId)
    (ts : List TransitionImpl) : Option (Nat × TransitionImpl) :=
  selectIdxAux w e current 0 ts

/-- Events produced by one pass over a hook list: hook `i` fires when both of
its filters accept, exactly as in the `for` loops of `StateMachine::run`. -/
def hookFires (mk : Nat → Ev) (a b : StateId) : Nat → List Hook → List Ev
  | _, [] => []
  | i, h :: hs =>
    if h.m1 a && h.m2 b then mk i :: hookFires mk a b (i + 1) hs
    else hookFires mk a b (i + 1) hs

/-- Exit-hook events for a transition from `c` to `n`: entry filters are
`(CurrentState::matches, NextState::matches)` and the loop tests
`matches_current(current) && matches_next(next_state)`. -/
def exitFires (m : StateMachine) (e : Entity) (c n : StateId) : List Ev :=
  hookFires (Ev.exitHook e) c n 0 m.on_exit

/-- Enter-hook events for a transition from `c` to `n`: entry filters are
`(NextState::matches, CurrentState::matches)` and the loop tests
`matches_next(next_state) && matches_current(current)`. -/
def enterFires (m : StateMachine) (e : Entity) (n c : StateId) : List Ev :=
  hookFires (Ev.enterHook e) n c 0 m.on_enter

/-- World effect of a taken transition in `StateMachine::run`: run the exit
hooks, then the closure built by `TransitionImpl::check` (which removes the
outgoing state and inserts the newly built one, in that order), then the enter
hooks.  Modelled from the spec: `Prev::remove(entity, world, curr)` is defined
in `state.rs` of the crate outside the sources at hand; per the spec it
removes specifically the state whose identity is `curr`, the current state. -/
def applyFired (m : StateMachine) (w : World) (e : Entity) (current : StateId)
    (t : TransitionImpl) : World :=
  let w1 : World := { w with trace := w.trace ++ exitFires m e current t.nextId }
  let w2 : World := { w1 with
    states := fun x => if x = e then removeId current (w1.states x) else w1.states x
    trace := w1.trace ++ [Ev.removeState e current] }
  let w3 : World := { w2 with
    states := fun x => if x = e then insertId t.nextId (w2.states x) else w2.states x
    trace := w2.trace ++ [Ev.insertState e t.nextId] }
  { w3 with trace := w3.trace ++ enterFires m e t.nextId current }

/-- Method `StateMachine::run` (`machine.rs` lines 322-368): determine the
current state (erroring out if the entity is in zero or in two known states),
select the first transition in registration order whose source filter accepts
the current state and whose trigger succeeds, and if one is found run the exit
hooks, the state swap, and the enter hooks, finally marking the transitions
dirty. -/
def StateMachine.run (m : StateMachine) (w : World) (e : Entity) :
    StateMachine × World :=
  match findWithRest (attachedP w e) m.states with
  | none => (m, { w with errors := w.errors ++ [Err.noState e] })
  | some (current, rest) =>
    match rest.find? (attachedP w e) with
    | some other =>
      (m, { w with errors := w.errors ++ [Err.multipleStates e current other] })
    | none =>
      match selectIdx w e current m.transitions with
      | none => (m, w)
      | some (_, t) =>
        ({ m with init_transitions := true }, applyFired m w e current t)

/-- Current-state determination of `StateMachine::run` in isolation: `some c`
when exactly one known state is attached, `none` when zero or several are. -/
def currentOf (m : StateMachine) (w : World) (e : Entity) : Option StateId :=
  match findWithRest (attachedP w e) m.states with
  | none => none
  | some (current, rest) =>
    match rest.find? (attachedP w e) with
    | some _ => none
    | none => some current

/-- The world together with the `StateMachine` component storage, as seen by
the exclusive system `transition` (`machine.rs` lines 374-417). -/
structure DWorld where
  base : World
  machines : Entity → Option StateMachine

/-- Checkout phase of `transition`: iterate the machine query, move each
`StateMachine` out into the borrowed list and leave a
`StateMachine::default()` stub in its place (`std::mem::replace`). -/
def checkout : List Entity → DWorld → List (Entity × StateMachine) × DWorld
  | [], dw => ([], dw)
  | e :: es, dw =>
    match dw.machines e with
    | none => checkout es dw
    | some m =>
      let step := checkout es
        { dw with machines := fun x => if x = e then some StateMachine.default else dw.machines x }
      ((e, m) :: step.1, step.2)

/-- Initialization loop of `transition`: `machine.init_transitions(world)` on
every borrowed machine. -/
def initAll (l : List (Entity × StateMachine)) : List (Entity × StateMachine) :=
  l.map (fun p => (p.1, p.2.initTrans))

/-- Run loop of `transition`: `machine.run(world, entity)` on each borrowed
machine in order, threading the world through.  The per-machine effect is a
parameter because a running machine invokes caller-supplied hook closures and
trigger systems, which may mutate the world arbitrarily (including the machine
storage); `machineRunEff` below instantiates it with the embedded
`StateMachine.run`. -/
def runAll (runEff : StateMachine → Entity → DWorld → StateMachine × DWorld) :
    List (Entity × StateMachine) → DWorld → List (Entity × StateMachine) × DWorld
  | [], dw => ([], dw)
  | (e, m) :: rest, dw =>
    let r := runEff m e dw
    let step := runAll runEff rest r.2
    ((e, r.1) :: step.1, step.2)

/-- Restore phase of `transition`: for each borrowed machine, if
`machine_query.get_mut(world, entity)` still finds a `StateMachine` on the
entity, overwrite it with the processed machine; otherwise (the component was
removed during the pass) discard the processed machine. -/
def restore : List (Entity × StateMachine) → DWorld → DWorld
  | [], dw => dw
  | (e, m) :: rest, dw =>
    match dw.machines e with
    | none => restore rest dw
    | some _ =>
      restore rest { dw with machines := fun x => if x = e then some m else dw.machines x }

/-- The exclusive system `transition`, parameterized by the per-machine run
effect: checkout, initialize, run each machine, restore. -/
def transitionWith (runEff : StateMachine → Entity → DWorld → StateMachine × DWorld)
    (order : List Entity) (dw : DWorld) : DWorld :=
  let co := checkout order dw
  let ran := runAll runEff (initAll co.1) co.2
  restore ran.1 ran.2

/-- Effect of `machine.run(world, entity)` on a `DWorld`: the embedded run
touches the base world only. -/
def machineRunEff (m : StateMachine) (e : Entity) (dw : DWorld) :
    StateMachine × DWorld :=
  ((m.run dw.base e).1, { dw with base := (m.run dw.base e).2 })

/-- The `transition` system with the embedded per-machine run. -/
def transitionSys (order : List Entity) (dw : DWorld) : DWorld :=
  transitionWith machineRunEff order dw

/-- System `remove_done_markers` (`trigger.rs` lines 406-410): remove the
`Done` component from every entity that has one, unconditionally. -/
def removeDoneMarkers (w : World) : World :=
  { w with dones := fun _ => none }

/-- Action of `remove_done_markers` on the full world. -/
def removeDoneMarkersD (dw : DWorld) : DWorld :=
  { dw with base := removeDoneMarkers dw.base }

/-- One engine pass of a tick: `trigger::plug` configures
`StateSet::RemoveDoneMarkers.after(StateSet::Transition)` and `machine::plug`
puts `transition` in `StateSet::Transition`, so `remove_done_markers` runs
after the transition system within each schedule run. -/
def tick (order : List Entity) (dw : DWorld) : DWorld :=
  removeDoneMarkersD (transitionSys order dw)

/-- Local state of the `on_event` trigger (`trigger.rs` lines 393-404): the
`Local<bool>` flag and the `EventReader` cursor, measured as the number of
events of the stream already read.  The event stream is modelled as the
monotone list of events of the relevant type received so far. -/
structure OnEventState where
  has_run : Bool
  cursor : Nat
deriving DecidableEq

/-- Freshly initialized `on_event` local state: `Local<bool>` defaults to
`false` and a fresh `EventReader` has seen no events. -/
def onEventInit : OnEventState :=
  { has_run := false, cursor := 0 }

/-- The `on_event` trigger body: on the first run, drain the reader
(`reader.read().last()`), set the flag, and return `None`; afterwards return
the most recent unread event, if any, draining the reader. -/
def onEventCheck {α : Type} (events : List α) (s : OnEventState) :
    Option α × OnEventState :=
  if s.has_run = false then
    (none, { has_run := true, cursor := events.length })
  else
    ((events.drop s.cursor).getLast?, { has_run := true, cursor := events.length })

/-- Modelled from the spec: the candidate ordering asserted by the claim and
by spec section 4.2 step 2 — transitions whose source is the current state
first, in registration order, followed by the transitions whose source is
`AnyState` — returning the target of the first candidate whose trigger
succeeds.  The source stores a single flat list instead, so this definition
exists to be compared against `StateMachine.run`. -/
def claimOrderFired (specific anyTrans : List TransitionImpl) (current : StateId)
    (w : World) (e : Entity) : Option StateId :=
  (((specific.filter (fun t => t.sourceMatches current)) ++ anyTrans).find?
    (fun t => t.check w e)).map (fun t => t.nextId)

/-- Empty world used as the base of the concrete examples below. -/
def emptyWorld : World :=
  { states := fun _ => [], dones := fun _ => none, trace := [], errors := [] }

/-- Transition on source state `0` whose trigger never fires, targeting `5`. -/
def tP0 : TransitionImpl :=
  { sourceMatches := fun s => s == 0, check := fun _ _ => false, nextId := 5 }

/-- Transition on source state `0` whose trigger always fires, targeting `7`. -/
def tP1 : TransitionImpl :=
  { sourceMatches := fun s => s == 0, check := fun _ _ => true, nextId := 7 }

/-- Machine with two transitions on the same source, the first not firing. -/
def mP : StateMachine :=
  { states := [0, 5, 7], transitions := [tP0, tP1], on_exit := [], on_enter := []
    init_transitions := true, log_transitions := false }

/-- World in which entity 0 is in state `0`. -/
def wP : World :=
  { emptyWorld with states := fun x => if x = 0 then [0] else [] }

/-- Self-transition on state `0`: source `0`, target `0`, always firing. -/
def tSelf : TransitionImpl :=
  { sourceMatches := fun s => s == 0, check := fun _ _ => true, nextId := 0 }

/-- Machine with the single self-transition `0 --always--> 0`. -/
def mSelf : StateMachine :=
  { states := [0], transitions := [tSelf], on_exit := [], on_enter := []
    init_transitions := true, log_transitions := false }

/-- Transition `0 --always--> 1` used by the hook-ordering example. -/
def tHk : TransitionImpl :=
  { sourceMatches := fun s => s == 0, check := fun _ _ => true, nextId := 1 }

/-- Machine `0 --always--> 1` with one exit hook filtering `(0, 1)` and one
enter hook filtering `(1, 0)`. -/
def mHk : StateMachine :=
  { states := [0, 1], transitions := [tHk]
    on_exit := [{ m1 := fun s => s == 0, m2 := fun s => s == 1 }]
    on_enter := [{ m1 := fun s => s == 1, m2 := fun s => s == 0 }]
    init_transitions := true, log_transitions := false }

/-- Transition registered on `AnyState` (its source filter accepts every
state id, as `AnyState::matches` does), targeting `1`, always firing.
Modelled from the spec: `EntityState::matches` for `AnyState` is defined in
`state.rs` of the crate outside the sources at hand; per the spec a
transition from `AnyState` may fire from any state. -/
def tAnyX : TransitionImpl :=
  { sourceMatches := fun _ => true, check := fun _ _ => true, nextId := 1 }

/-- Transition on concrete source state `0`, targeting `2`, always firing. -/
def tSY : TransitionImpl :=
  { sourceMatches := fun s => s == 0, check := fun _ _ => true, nextId := 2 }

/-- Machine registering the `AnyState` transition first and the
source-specific transition second (100 is the id of `AnyState`, which is
never attached to an entity). -/
def mC4 : StateMachine :=
  { states := [100, 1, 0, 2], transitions := [tAnyX, tSY], on_exit := [], on_enter := []
    init_transitions := true, log_transitions := false }

/-- World in which entity 0 is in state `0`, for the candidate-order example. -/
def wC4 : World :=
  { emptyWorld with states := fun x => if x = 0 then [0] else [] }

/-- First of two always-firing transitions on source `0`, targeting `1`. -/
def tC5a : TransitionImpl :=
  { sourceMatches := fun s => s == 0, check := fun _ _ => true, nextId := 1 }

/-- Second of two always-firing transitions on source `0`, targeting `2`. -/
def tC5b : TransitionImpl :=
  { sourceMatches := fun s => s == 0, check := fun _ _ => true, nextId := 2 }

/-- Machine with two willing candidates on the same source state. -/
def mC5 : StateMachine :=
  { states := [0, 1, 2], transitions := [tC5a, tC5b], on_exit := [], on_enter := []
    init_transitions := true, log_transitions := false }

/-- World in which entity 0 is in state `0`, for the no-decline example. -/
def wC5 : World :=
  { emptyWorld with states := fun x => if x = 0 then [0] else [] }

/-- Machine knowing states `0` and `5` and having no transitions. -/
def mInv : StateMachine :=
  { states := [0, 5], transitions := [], on_exit := [], on_enter := []
    init_transitions := true, log_transitions := false }

/-- World in which entity 7 is in the two states `0` and `5` at once. -/
def wInv : World :=
  { emptyWorld with states := fun x => if x = 7 then [0, 5] else [] }

/-- Machine of entity 1 in the two-entity example: `10 --always--> 11`. -/
def mC6b : StateMachine :=
  { states := [10, 11]
    transitions := [{ sourceMatches := fun s => s == 10, check := fun _ _ => true, nextId := 11 }]
    on_exit := [], on_enter := [], init_transitions := true, log_transitions := false }

/-- Two-entity world: entity 0 violates the single-state invariant (it is in
states `0` and `5`), entity 1 is validly in state `10`. -/
def dwC6 : DWorld :=
  { base := { emptyWorld with
      states := fun x => if x = 0 then [0, 5] else if x = 1 then [10] else [] }
    machines := fun x =>
      if x = 0 then some mInv else if x = 1 then some mC6b else none }

/-- Transition on source state `0` whose trigger never fires, targeting `1`. -/
def tN : TransitionImpl :=
  { sourceMatches := fun s => s == 0, check := fun _ _ => false, nextId := 1 }

/-- Machine whose single transition's trigger never fires. -/
def mN : StateMachine :=
  { states := [0, 1], transitions := [tN]
    on_exit := [], on_enter := [], init_transitions := true, log_transitions := false }

/-- World in which entity 0 is in state `0`, for the non-firing example. -/
def wN : World :=
  { emptyWorld with states := fun x => if x = 0 then [0] else [] }

/-- Per-machine run effect that leaves the world untouched, used to
instantiate the checkout/restore protocol at a concrete input. -/
def idRunEff : StateMachine → Entity → DWorld → StateMachine × DWorld :=
  fun m _ dw => (m, dw)

/-- Simple machine checked out in the protocol example. -/
def mW0 : StateMachine :=
  { states := [3], transitions := [], on_exit := [], on_enter := []
    init_transitions := true, log_transitions := false }

/-- World whose only machine sits on entity 0. -/
def dwW : DWorld :=
  { base := emptyWorld, machines := fun x => if x = 0 then some mW0 else none }

/-- Predicate picking out state-insertion events in a trace. -/
def isInsertEv : Ev → Bool
  | Ev.insertState _ _ => true
  | _ => false

lemma mem_insertId (s : StateId) (l : List StateId) : s ∈ insertId s l := by
  unfold insertId
  by_cases h : l.contains s = true
  · rw [if_pos h]
    exact List.mem_of_elem_eq_true h
  · rw [if_neg h]
    exact List.mem_append_right _ (List.mem_singleton.mpr rfl)

lemma selectIdxAux_some_decomp {w : World} {e : Entity} {c : StateId} :
    ∀ {ts : List TransitionImpl} {s k : Nat} {t : TransitionImpl},
      selectIdxAux w e c s ts = some (k, t) →
      ∃ pre post, ts = pre ++ t :: post ∧ k = s + pre.length ∧
        t.sourceMatches c = true ∧ t.check w e = true ∧
        ∀ ti ∈ pre, ti.sourceMatches c = true → ti.check w e = false := by
  intro ts
  induction ts with
  | nil => intro s k t h; simp [selectIdxAux] at h
  | cons t0 ts ih =>
    intro s k t h
    rw [selectIdxAux] at h
    by_cases hc : (t0.sourceMatches c && t0.check w e) = true
    · rw [if_pos hc] at h
      simp only [Option.some.injEq, Prod.mk.injEq] at h
      obtain ⟨hk, ht⟩ := h
      rw [Bool.and_eq_true] at hc
      refine ⟨[], ts, by simp [ht], by simp [hk], ht ▸ hc.1, ht ▸ hc.2, by simp⟩
    · rw [if_neg hc] at h
      obtain ⟨pre, post, hts, hk, hm, hck, hpre⟩ := ih h
      refine ⟨t0 :: pre, post, by simp [hts], by simp [hk]; omega, hm, hck, ?_⟩
      intro ti hti hmi
      rcases List.mem_cons.mp hti with h0 | hmem
      · subst h0
        cases hb : ti.check w e with
        | false => rfl
        | true => exact absurd (by rw [Bool.and_eq_true]; exact ⟨hmi, hb⟩) hc
      · exact hpre ti hmem hmi

lemma selectIdxAux_none {w : World} {e : Entity} {c : StateId} :
    ∀ {ts : List TransitionImpl} {s : Nat}, selectIdxAux w e c s ts = none →
      ∀ t ∈ ts, t.sourceMatches c = true → t.check w e = false := by
  intro ts
  induction ts with
  | nil => intro s _ t ht; simp at ht
  | cons t0 ts ih =>
    intro s h t ht hm
    rw [selectIdxAux] at h
    by_cases hc : (t0.sourceMatches c && t0.check w e) = true
    · rw [if_pos hc] at h; exact absurd h (by simp)
    · rw [if_neg hc] at h
      rcases List.mem_cons.mp ht with h0 | hmem
      · subst h0
        cases hb : t.check w e with
        | false => rfl
        | true => exact absurd (by rw [Bool.and_eq_true]; exact ⟨hm, hb⟩) hc
      · exact ih h t hmem hm

lemma selectIdx_some_decomp {w : World} {e : Entity} {c : StateId}
    {ts : List TransitionImpl} {k : Nat} {t : TransitionImpl}
    (h : selectIdx w e c ts = some (k, t)) :
    ∃ pre post, ts = pre ++ t :: post ∧ k = pre.length ∧
      t.sourceMatches c = true ∧ t.check w e = true ∧
      ∀ ti ∈ pre, ti.sourceMatches c = true → ti.check w e = false := by
  obtain ⟨pre, post, h1, h2, h3, h4, h5⟩ := selectIdxAux_some_decomp h
  exact ⟨pre, post, h1, by omega, h3, h4, h5⟩

lemma selectIdx_none {w : World} {e : Entity} {c : StateId} {ts : List TransitionImpl}
    (h : selectIdx w e c ts = none) :
    ∀ t ∈ ts, t.sourceMatches c = true → t.check w e = false :=
  selectIdxAux_none h

lemma mem_hookFires {mk : Nat → Ev} {a b : StateId} :
    ∀ {hs : List Hook} {s : Nat} {x : Ev}, x ∈ hookFires mk a b s hs →
      ∃ j, s ≤ j ∧ x = mk j := by
  intro hs
  induction hs with
  | nil => intro s x hx; simp [hookFires] at hx
  | cons h0 tl ih =>
    intro s x hx
    rw [hookFires] at hx
    by_cases hc : (h0.m1 a && h0.m2 b) = true
    · rw [if_pos hc] at hx
      rcases List.mem_cons.mp hx with h1 | hmem
      · exact ⟨s, Nat.le_refl s, h1⟩
      · obtain ⟨j, hj, hx⟩ := ih hmem
        exact ⟨j, by omega, hx⟩
    · rw [if_neg hc] at hx
      obtain ⟨j, hj, hx⟩ := ih hx
      exact ⟨j, by omega, hx⟩

lemma count_hookFires_one (mk : Nat → Ev) (hinj : ∀ x y, mk x = mk y → x = y)
    {a b : StateId} :
    ∀ (hs : List Hook) (s i : Nat) (h : Hook), hs[i]? = some h →
      h.m1 a = true → h.m2 b = true →
      (hookFires mk a b s hs).count (mk (s + i)) = 1 := by
  intro hs
  induction hs with
  | nil => intro s i h hi; simp at hi
  | cons h0 tl ih =>
    intro s i h hi hm1 hm2
    cases i with
    | zero =>
      simp only [List.getElem?_cons_zero, Option.some.injEq] at hi
      subst hi
      rw [hookFires, if_pos (by rw [Bool.and_eq_true]; exact ⟨hm1, hm2⟩)]
      rw [Nat.add_zero, List.count_cons_self]
      have hnot : mk s ∉ hookFires mk a b (s + 1) tl := by
        intro hmem
        obtain ⟨j, hj, hx⟩ := mem_hookFires hmem
        have := hinj _ _ hx
        omega
      rw [List.count_eq_zero.mpr hnot]
    | succ i' =>
      simp only [List.getElem?_cons_succ] at hi
      have harith : s + (i' + 1) = (s + 1) + i' := by omega
      rw [hookFires]
      by_cases hc : (h0.m1 a && h0.m2 b) = true
      · rw [if_pos hc]
        have hne : mk (s + (i' + 1)) ≠ mk s := by
          intro hx
          have := hinj _ _ hx
          omega
        rw [List.count_cons_of_ne hne, harith]
        exact ih _ _ _ hi hm1 hm2
      · rw [if_neg hc, harith]
        exact ih _ _ _ hi hm1 hm2

lemma countP_hookFires_zero {p : Ev → Bool} {mk : Nat → Ev}
    (hp : ∀ i, p (mk i) = false) {a b : StateId} :
    ∀ {hs : List Hook} {s : Nat}, (hookFires mk a b s hs).countP p = 0 := by
  intro hs
  induction hs with
  | nil => intro s; simp [hookFires]
  | cons h0 tl ih =>
    intro s
    rw [hookFires]
    by_cases hc : (h0.m1 a && h0.m2 b) = true
    · rw [if_pos hc, List.countP_cons_of_neg _ _ (by simp [hp])]
      exact ih
    · rw [if_neg hc]
      exact ih

lemma findWithRest_none {p : StateId → Bool} :
    ∀ {l : List StateId}, findWithRest p l = none → ∀ x ∈ l, p x = false := by
  intro l
  induction l with
  | nil => intro _ x hx; simp at hx
  | cons s rest ih =>
    intro h x hx
    rw [findWithRest] at h
    by_cases hs : p s = true
    · rw [if_pos hs] at h; exact absurd h (by simp)
    · rw [if_neg hs] at h
      rcases List.mem_cons.mp hx with h0 | hmem
      · subst h0; exact Bool.eq_false_iff.mpr hs
      · exact ih h x hmem

lemma findWithRest_some {p : StateId → Bool} :
    ∀ {l : List StateId} {c : StateId} {rest : List StateId},
      findWithRest p l = some (c, rest) →
      p c = true ∧ c ∈ l ∧ ∀ x ∈ rest, x ∈ l := by
  intro l
  induction l with
  | nil => intro c rest h; simp [findWithRest] at h
  | cons s tl ih =>
    intro c rest h
    rw [findWithRest] at h
    by_cases hs : p s = true
    · rw [if_pos hs] at h
      simp only [Option.some.injEq, Prod.mk.injEq] at h
      obtain ⟨h1, h2⟩ := h
      subst h1; subst h2
      exact ⟨hs, List.mem_cons_self _ _, fun x hx => List.mem_cons_of_mem _ hx⟩
    · rw [if_neg hs] at h
      obtain ⟨h1, h2, h3⟩ := ih h
      exact ⟨h1, List.mem_cons_of_mem _ h2, fun x hx => List.mem_cons_of_mem _ (h3 x hx)⟩

lemma currentOf_eq_some {m : StateMachine} {w : World} {e : Entity} {c : StateId}
    (h : currentOf m w e = some c) :
    ∃ rest, findWithRest (attachedP w e) m.states = some (c, rest) ∧
      rest.find? (attachedP w e) = none := by
  unfold currentOf at h
  cases hf : findWithRest (attachedP w e) m.states with
  | none => rw [hf] at h; simp at h
  | some pr =>
    obtain ⟨c', rest⟩ := pr
    rw [hf] at h
    dsimp only at h
    cases hr : rest.find? (attachedP w e) with
    | some other => rw [hr] at h; simp at h
    | none =>
      rw [hr] at h
      simp only [Option.some.injEq] at h
      subst h
      exact ⟨rest, rfl, hr⟩

lemma currentOf_none_cases {m : StateMachine} {w : World} {e : Entity}
    (h : currentOf m w e = none) :
    findWithRest (attachedP w e) m.states = none ∨
    ∃ c rest other, findWithRest (attachedP w e) m.states = some (c, rest) ∧
      rest.find? (attachedP w e) = some other := by
  unfold currentOf at h
  cases hf : findWithRest (attachedP w e) m.states with
  | none => exact Or.inl rfl
  | some pr =>
    obtain ⟨c', rest⟩ := pr
    rw [hf] at h
    dsimp only at h
    cases hr : rest.find? (attachedP w e) with
    | some other => exact Or.inr ⟨c', rest, other, rfl, hr⟩
    | none => rw [hr] at h; simp at h

lemma run_eq_noState {m : StateMachine} {w : World} {e : Entity}
    (hf : findWithRest (attachedP w e) m.states = none) :
    m.run w e = (m, { w with errors := w.errors ++ [Err.noState e] }) := by
  unfold StateMachine.run
  rw [hf]

lemma run_eq_multiple {m : StateMachine} {w : World} {e : Entity}
    {c other : StateId} {rest : List StateId}
    (hf : findWithRest (attachedP w e) m.states = some (c, rest))
    (hr : rest.find? (attachedP w e) = some other) :
    m.run w e = (m, { w with errors := w.errors ++ [Err.multipleStates e c other] }) := by
  unfold StateMachine.run
  rw [hf]
  simp only [hr]

lemma run_eq_noFire {m : StateMachine} {w : World} {e : Entity} {c : StateId}
    (hcur : currentOf m w e = some c)
    (hsel : selectIdx w e c m.transitions = none) :
    m.run w e = (m, w) := by
  obtain ⟨rest, hf, hr⟩ := currentOf_eq_some hcur
  unfold StateMachine.run
  rw [hf]
  simp only [hr, hsel]

lemma run_eq_fired {m : StateMachine} {w : World} {e : Entity} {c : StateId}
    {k : Nat} {t : TransitionImpl}
    (hcur : currentOf m w e = some c)
    (hsel : selectIdx w e c m.transitions = some (k, t)) :
    m.run w e = ({ m with init_transitions := true }, applyFired m w e c t) := by
  obtain ⟨rest, hf, hr⟩ := currentOf_eq_some hcur
  unfold StateMachine.run
  rw [hf]
  simp only [hr, hsel]

lemma applyFired_trace (m : StateMachine) (w : World) (e : Entity) (c : StateId)
    (t : TransitionImpl) :
    (applyFired m w e c t).trace =
      w.trace ++ exitFires m e c t.nextId
        ++ [Ev.removeState e c, Ev.insertState e t.nextId]
        ++ enterFires m e t.nextId c := by
  simp [applyFired, List.append_assoc]

lemma applyFired_states (m : StateMachine) (w : World) (e : Entity) (c : StateId)
    (t : TransitionImpl) :
    (applyFired m w e c t).states =
      fun x => if x = e then insertId t.nextId (removeId c (w.states x)) else w.states x := by
  funext x
  by_cases hx : x = e <;> simp [applyFired, hx]

lemma applyFired_errors (m : StateMachine) (w : World) (e : Entity) (c : StateId)
    (t : TransitionImpl) : (applyFired m w e c t).errors = w.errors := rfl

lemma applyFired_dones (m : StateMachine) (w : World) (e : Entity) (c : StateId)
    (t : TransitionImpl) : (applyFired m w e c t).dones = w.dones := rfl

lemma checkout_machines_not_mem {e : Entity} :
    ∀ {es : List Entity} {dw : DWorld}, e ∉ es →
      (checkout es dw).2.machines e = dw.machines e := by
  intro es
  induction es with
  | nil => intro dw _; rfl
  | cons e0 es ih =>
    intro dw he
    have he0 : e ≠ e0 := fun h => he (h ▸ List.mem_cons_self e0 es)
    have hes : e ∉ es := fun h => he (List.mem_cons_of_mem _ h)
    rw [checkout]
    cases hm : dw.machines e0 with
    | none => exact ih hes
    | some m =>
      dsimp only
      rw [ih hes]
      simp [he0]

lemma checkout_spec {e : Entity} {m : StateMachine} :
    ∀ {es : List Entity} {dw : DWorld}, es.Nodup → e ∈ es →
      dw.machines e = some m →
      (e, m) ∈ (checkout es dw).1 ∧
        (checkout es dw).2.machines e = some StateMachine.default := by
  intro es
  induction es with
  | nil => intro dw _ he; simp at he
  | cons e0 es ih =>
    intro dw hnd he hm
    have hnd0 : e0 ∉ es := (List.nodup_cons.mp hnd).1
    have hnds : es.Nodup := (List.nodup_cons.mp hnd).2
    rw [checkout]
    by_cases he0 : e = e0
    · subst he0
      rw [hm]
      dsimp only
      refine ⟨List.mem_cons_self _ _, ?_⟩
      rw [checkout_machines_not_mem hnd0]
      simp
    · have hes : e ∈ es := (List.mem_cons.mp he).resolve_left he0
      cases hm0 : dw.machines e0 with
      | none => exact ih hnds hes hm
      | some m0 =>
        dsimp only
        have hm' : ({ dw with machines :=
            fun x => if x = e0 then some StateMachine.default else dw.machines x } : DWorld).machines e
            = some m := by simp [he0, hm]
        obtain ⟨h1, h2⟩ := ih hnds hes hm'
        exact ⟨List.mem_cons_of_mem _ h1, h2⟩

lemma checkout_fst_sublist :
    ∀ {es : List Entity} {dw : DWorld}, List.Sublist ((checkout es dw).1.map Prod.fst) es := by
  intro es
  induction es with
  | nil => intro dw; rw [checkout]; exact List.Sublist.refl []
  | cons e0 es ih =>
    intro dw
    rw [checkout]
    cases dw.machines e0 with
    | none => exact List.Sublist.cons e0 ih
    | some m =>
      dsimp only
      simp only [List.map_cons]
      exact List.Sublist.cons₂ e0 ih

lemma initAll_fst (l : List (Entity × StateMachine)) :
    (initAll l).map Prod.fst = l.map Prod.fst := by
  induction l with
  | nil => rfl
  | cons p l ih =>
    simp only [initAll, List.map_cons] at ih ⊢
    rw [ih]

lemma runAll_fst (runEff : StateMachine → Entity → DWorld → StateMachine × DWorld) :
    ∀ (l : List (Entity × StateMachine)) (dw : DWorld),
      (runAll runEff l dw).1.map Prod.fst = l.map Prod.fst := by
  intro l
  induction l with
  | nil => intro dw; rfl
  | cons p l ih =>
    intro dw
    obtain ⟨e, m⟩ := p
    rw [runAll]
    simp only [List.map_cons]
    rw [ih]

lemma restore_not_mem {e : Entity} :
    ∀ {l : List (Entity × StateMachine)} {dw : DWorld}, e ∉ l.map Prod.fst →
      (restore l dw).machines e = dw.machines e := by
  intro l
  induction l with
  | nil => intro dw _; rfl
  | cons p l ih =>
    intro dw he
    obtain ⟨e0, m0⟩ := p
    simp only [List.map_cons, List.mem_cons] at he
    push_neg at he
    obtain ⟨he0, hes⟩ := he
    rw [restore]
    cases dw.machines e0 with
    | none => exact ih hes
    | some _ =>
      dsimp only
      rw [ih hes]
      simp [he0]

lemma restore_mem {e : Entity} {m : StateMachine} :
    ∀ {l : List (Entity × StateMachine)} {dw : DWorld},
      (l.map Prod.fst).Nodup → (e, m) ∈ l →
      (restore l dw).machines e =
        if (dw.machines e).isSome then some m else dw.machines e := by
  intro l
  induction l with
  | nil => intro dw _ he; simp at he
  | cons p l ih =>
    intro dw hnd he
    obtain ⟨e0, m0⟩ := p
    simp only [List.map_cons, List.nodup_cons] at hnd
    obtain ⟨hnd0, hnds⟩ := hnd
    rw [restore]
    rcases List.mem_cons.mp he with h1 | hmem
    · obtain ⟨he0, hm0⟩ : e = e0 ∧ m = m0 := by
        simpa [Prod.ext_iff] using h1
      subst he0; subst hm0
      cases hdm : dw.machines e with
      | none => simp [restore_not_mem hnd0, hdm]
      | some mOld =>
        dsimp only
        rw [restore_not_mem hnd0]
        simp
    · have he0 : e ≠ e0 := by
        intro h
        exact hnd0 (h ▸ List.mem_map_of_mem Prod.fst hmem)
      cases dw.machines e0 with
      | none => exact ih hnds hmem
      | some _ =>
        dsimp only
        rw [ih hnds hmem]
        simp [he0]

lemma selectIdxAux_map_snd {w : World} {e : Entity} {c : StateId} :
    ∀ (ts : List TransitionImpl) (s : Nat),
      (selectIdxAux w e c s ts).map Prod.snd =
        (ts.filter (fun t => t.sourceMatches c)).find? (fun t => t.check w e) := by
  intro ts
  induction ts with
  | nil => intro s; rfl
  | cons t0 ts ih =>
    intro s
    rw [selectIdxAux]
    by_cases hm : t0.sourceMatches c = true
    · by_cases hc : t0.check w e = true
      · rw [if_pos (by rw [Bool.and_eq_true]; exact ⟨hm, hc⟩)]
        simp [List.filter_cons, List.find?, hm, hc]
      · rw [if_neg (by rw [Bool.and_eq_true]; exact fun h => hc h.2)]
        rw [ih (s + 1)]
        simp [List.filter_cons, List.find?, hm, hc]
    · rw [if_neg (by rw [Bool.and_eq_true]; exact fun h => hm h.1)]
      rw [ih (s + 1)]
      simp [List.filter_cons, hm]

/-- C1: on every run of a machine over an entity, candidate transitions are
evaluated in registration order and at most one fires (the trace grows by at
most one state insertion); whenever transition `t` at registration index `k`
is the one selected, every earlier-registered candidate matching the current
state has a failing trigger, and no earlier-registered transition with the
same source filter and the same trigger exists — so of two transitions
registered on the same source with the same trigger, only the
first-registered one is ever taken. -/
theorem run_first_candidate_priority (m : StateMachine) (w : World) (e : Entity) :
    (∃ d, (m.run w e).2.trace = w.trace ++ d ∧ d.countP isInsertEv ≤ 1) ∧
    (∀ c k t, currentOf m w e = some c → selectIdx w e c m.transitions = some (k, t) →
      (∀ i ti, i < k → m.transitions[i]? = some ti →
        ti.sourceMatches c = true → ti.check w e = false) ∧
      (∀ i ti, i < k → m.transitions[i]? = some ti →
        ¬(ti.sourceMatches = t.sourceMatches ∧ ti.check = t.check))) := by
  constructor
  · rcases hcur : currentOf m w e with _ | c
    · rcases currentOf_none_cases hcur with hf | ⟨c, rest, other, hf, hr⟩
      · rw [run_eq_noState hf]
        exact ⟨[], by simp, by simp⟩
      · rw [run_eq_multiple hf hr]
        exact ⟨[], by simp, by simp⟩
    · rcases hsel : selectIdx w e c m.transitions with _ | ⟨k, t⟩
      · rw [run_eq_noFire hcur hsel]
        exact ⟨[], by simp, by simp⟩
      · rw [run_eq_fired hcur hsel]
        refine ⟨exitFires m e c t.nextId
            ++ ([Ev.removeState e c, Ev.insertState e t.nextId]
              ++ enterFires m e t.nextId c), ?_, ?_⟩
        · rw [applyFired_trace]
          simp [List.append_assoc]
        · rw [List.countP_append, List.countP_append]
          have hexit : (exitFires m e c t.nextId).countP isInsertEv = 0 :=
            countP_hookFires_zero (fun _ => rfl)
          have henter : (enterFires m e t.nextId c).countP isInsertEv = 0 :=
            countP_hookFires_zero (fun _ => rfl)
          rw [hexit, henter]
          simp [isInsertEv]
  · intro c k t hcur hsel
    obtain ⟨pre, post, h1, h2, hmt, hck, hpre⟩ := selectIdx_some_decomp hsel
    have hmem : ∀ i ti, i < k → m.transitions[i]? = some ti → ti ∈ pre := by
      intro i ti hik hi
      rw [h1] at hi
      rw [List.getElem?_append, if_pos (h2 ▸ hik)] at hi
      exact List.mem_iff_getElem?.mpr ⟨i, hi⟩
    constructor
    · intro i ti hik hi hms
      exact hpre ti (hmem i ti hik hi) hms
    · rintro i ti hik hi ⟨hms, hcs⟩
      have hfalse := hpre ti (hmem i ti hik hi) (by rw [hms, hmt])
      rw [hcs, hck] at hfalse
      simp at hfalse

/-- Witness for the priority theorem: in the machine `mP` the transition at
index 1 fires, and the theorem yields that the earlier-registered candidate's
trigger failed, together with the at-most-one-insertion bound. -/
theorem run_first_candidate_priority_witness :
    tP0.check wP 0 = false ∧
    (∃ d, (mP.run wP 0).2.trace = wP.trace ++ d ∧ d.countP isInsertEv ≤ 1) := by
  have h := run_first_candidate_priority mP wP 0
  exact ⟨(h.2 0 1 tP1 rfl rfl).1 0 tP0 (by decide) rfl rfl, h.1⟩

/-- C2: a taken self-transition (target id equal to the current state id)
leaves the entity with that state attached after the run, and the trace shows
that the outgoing state is removed strictly before the newly built one is
inserted, so the swap never deletes the fresh data. -/
theorem run_self_transition_keeps_state (m : StateMachine) (w : World) (e : Entity)
    (c : StateId) (k : Nat) (t : TransitionImpl)
    (hcur : currentOf m w e = some c)
    (hsel : selectIdx w e c m.transitions = some (k, t))
    (hself : t.nextId = c) :
    c ∈ (m.run w e).2.states e ∧
    ∃ pre post, (m.run w e).2.trace =
      pre ++ Ev.removeState e c :: Ev.insertState e c :: post := by
  rw [run_eq_fired hcur hsel]
  constructor
  · rw [applyFired_states]
    dsimp only
    rw [if_pos rfl, hself]
    exact mem_insertId c _
  · rw [applyFired_trace, hself]
    exact ⟨w.trace ++ exitFires m e c c, enterFires m e c c, by simp [List.append_assoc]⟩

/-- Witness for the self-transition theorem at the machine
`0 --always--> 0`. -/
theorem run_self_transition_keeps_state_witness :
    0 ∈ (mSelf.run wP 0).2.states 0 :=
  (run_self_transition_keeps_state mSelf wP 0 0 0 tSelf rfl rfl rfl).1

/-- C3: for a taken transition from `c` to `t.nextId`, the trace of the run
is exactly the matching exit-hook events, then the removal of `c`, then the
insertion of the new state, then the matching enter-hook events — so every
qualifying exit hook takes effect strictly before the old state is removed
and every qualifying enter hook strictly after the new state is inserted —
and each qualifying hook occurs exactly once. -/
theorem run_hook_ordering (m : StateMachine) (w : World) (e : Entity)
    (c : StateId) (k : Nat) (t : TransitionImpl)
    (hcur : currentOf m w e = some c)
    (hsel : selectIdx w e c m.transitions = some (k, t)) :
    (m.run w e).2.trace =
      w.trace ++ exitFires m e c t.nextId
        ++ [Ev.removeState e c, Ev.insertState e t.nextId]
        ++ enterFires m e t.nextId c ∧
    (∀ i h, m.on_exit[i]? = some h → h.m1 c = true → h.m2 t.nextId = true →
      (exitFires m e c t.nextId).count (Ev.exitHook e i) = 1) ∧
    (∀ i h, m.on_enter[i]? = some h → h.m1 t.nextId = true → h.m2 c = true →
      (enterFires m e t.nextId c).count (Ev.enterHook e i) = 1) := by
  refine ⟨?_, ?_, ?_⟩
  · rw [run_eq_fired hcur hsel, applyFired_trace]
  · intro i h hi h1 h2
    have hone := count_hookFires_one (Ev.exitHook e)
      (fun x y hxy => (Ev.exitHook.inj hxy).2)
      m.on_exit 0 i h hi h1 h2
    simpa [exitFires] using hone
  · intro i h hi h1 h2
    have hone := count_hookFires_one (Ev.enterHook e)
      (fun x y hxy => (Ev.enterHook.inj hxy).2)
      m.on_enter 0 i h hi h1 h2
    simpa [enterFires] using hone

/-- Witness for the hook-ordering theorem at the machine `0 --always--> 1`
with one exit hook filtering `(0, 1)` and one enter hook filtering
`(1, 0)`. -/
theorem run_hook_ordering_witness :
    (mHk.run wP 0).2.trace =
      wP.trace ++ exitFires mHk 0 0 1 ++ [Ev.removeState 0 0, Ev.insertState 0 1]
        ++ enterFires mHk 0 1 0 ∧
    (exitFires mHk 0 0 1).count (Ev.exitHook 0 0) = 1 ∧
    (enterFires mHk 0 1 0).count (Ev.enterHook 0 0) = 1 := by
  have h := run_hook_ordering mHk wP 0 0 0 tHk rfl rfl
  exact ⟨h.1, h.2.1 0 _ rfl rfl rfl, h.2.2 0 _ rfl rfl rfl⟩

/-- Counterexample to C4's candidate ordering: in `mC4` the `AnyState`
transition (target `1`) was registered before the source-specific transition
(target `2`).  The claimed candidate list — source-specific transitions
first, then the `AnyState` group — would fire the source-specific transition
and produce state `2` (second conjunct), but the code keeps one flat
registration-order list, so the earlier-registered `AnyState` transition
fires and the entity ends in state `1` (first conjunct). -/
theorem anyState_priority_counterexample :
    (mC4.run wC4 0).2.states 0 = [1] ∧
    claimOrderFired [tSY] [tAnyX] 0 wC4 0 = some 2 ∧
    (1 : StateId) ≠ 2 := by
  refine ⟨by decide, by decide, by decide⟩

/-- C4 as amended: a transition whose source filter accepts every state id
(an `AnyState` transition) is a candidate regardless of the current state,
and the candidate list is the sublist of all transitions whose source filter
accepts the current state — source-specific and `AnyState` transitions
interleaved — in registration order, with the first candidate whose trigger
succeeds selected. -/
theorem run_candidates_registration_order (m : StateMachine) (w : World)
    (e : Entity) (c : StateId) :
    (selectIdx w e c m.transitions).map Prod.snd =
      (m.transitions.filter (fun t => t.sourceMatches c)).find?
        (fun t => t.check w e) ∧
    (∀ t, t ∈ m.transitions → t.sourceMatches c = true →
      t ∈ m.transitions.filter (fun tr => tr.sourceMatches c)) ∧
    (∀ t, t ∈ m.transitions → (∀ s, t.sourceMatches s = true) →
      t ∈ m.transitions.filter (fun tr => tr.sourceMatches c)) := by
  refine ⟨selectIdxAux_map_snd m.transitions 0, ?_, ?_⟩
  · intro t ht hm
    exact List.mem_filter.mpr ⟨ht, hm⟩
  · intro t ht hm
    exact List.mem_filter.mpr ⟨ht, hm c⟩

/-- Witness for the amended candidate-order theorem: the `AnyState`
transition of `mC4` is a candidate even for a state id (5) that no concrete
source filter accepts, and the selection equation holds at `mC4`. -/
theorem run_candidates_registration_order_witness :
    tAnyX ∈ mC4.transitions.filter (fun tr => tr.sourceMatches 5) ∧
    (selectIdx wC4 0 5 mC4.transitions).map Prod.snd =
      (mC4.transitions.filter (fun t => t.sourceMatches 5)).find?
        (fun t => t.check wC4 0) := by
  have h := run_candidates_registration_order mC4 wC4 0 5
  exact ⟨h.2.2 tAnyX (List.mem_cons_self _ _) (fun s => rfl), h.1⟩

/-- C5 check: once a candidate's trigger succeeds and it is selected, the
transition always takes place — the new state is inserted and the entity's
state list is rewritten — because the builder is a total system of output
type `Next` whose result is inserted unconditionally; there is no
builder-returns-`None` path that could decline and pass evaluation to the
next candidate. -/
theorem trigger_success_always_transitions (m : StateMachine) (w : World)
    (e : Entity) (c : StateId) (k : Nat) (t : TransitionImpl)
    (hcur : currentOf m w e = some c)
    (hsel : selectIdx w e c m.transitions = some (k, t)) :
    Ev.insertState e t.nextId ∈ (m.run w e).2.trace ∧
    (m.run w e).2.states e = insertId t.nextId (removeId c (w.states e)) := by
  rw [run_eq_fired hcur hsel]
  constructor
  · rw [applyFired_trace]
    simp
  · rw [applyFired_states]
    dsimp only
    rw [if_pos rfl]

/-- Witness for the no-decline theorem: in `mC5` both candidates' triggers
succeed, and the first-registered one (target `1`) transitions
unconditionally. -/
theorem trigger_success_always_transitions_witness :
    (mC5.run wC5 0).2.states 0 = insertId 1 (removeId 0 (wC5.states 0)) :=
  (trigger_success_always_transitions mC5 wC5 0 0 0 tC5a rfl rfl).2

/-- C6: when the entity is attached to zero or to several of the machine's
known states, the run leaves the machine and every entity's state components
unchanged and produces no hook or swap events — only an error naming the
entity (and, in the multiple-states case, the two offending states found) is
reported — and, as the concrete two-entity pass shows, the other entity's
machine is still processed in the same tick. -/
theorem run_invalid_state_aborts_entity (m : StateMachine) (w : World)
    (e : Entity) (h : currentOf m w e = none) :
    (m.run w e).1 = m ∧
    (m.run w e).2.states = w.states ∧
    (m.run w e).2.trace = w.trace ∧
    (((m.run w e).2.errors = w.errors ++ [Err.noState e] ∧
        ∀ s ∈ m.states, attachedP w e s = false) ∨
      (∃ s1 s2, (m.run w e).2.errors = w.errors ++ [Err.multipleStates e s1 s2] ∧
        s1 ∈ m.states ∧ s2 ∈ m.states ∧
        attachedP w e s1 = true ∧ attachedP w e s2 = true)) ∧
    ((transitionSys [0, 1] dwC6).base.states 0 = [0, 5] ∧
      (transitionSys [0, 1] dwC6).base.states 1 = [11] ∧
      Err.multipleStates 0 0 5 ∈ (transitionSys [0, 1] dwC6).base.errors) := by
  have hconc : (transitionSys [0, 1] dwC6).base.states 0 = [0, 5] ∧
      (transitionSys [0, 1] dwC6).base.states 1 = [11] ∧
      Err.multipleStates 0 0 5 ∈ (transitionSys [0, 1] dwC6).base.errors := by
    refine ⟨by decide, by decide, by decide⟩
  rcases currentOf_none_cases h with hf | ⟨c, rest, other, hf, hr⟩
  · rw [run_eq_noState hf]
    exact ⟨rfl, rfl, rfl, Or.inl ⟨rfl, findWithRest_none hf⟩, hconc⟩
  · rw [run_eq_multiple hf hr]
    obtain ⟨hp, hc, hrest⟩ := findWithRest_some hf
    exact ⟨rfl, rfl, rfl,
      Or.inr ⟨c, other, rfl, hc, hrest other (List.mem_of_find?_eq_some hr),
        hp, List.find?_some hr⟩, hconc⟩

/-- Witness for the invalid-state theorem at a machine whose entity is in
two known states at once. -/
theorem run_invalid_state_aborts_entity_witness :
    (mInv.run wInv 7).2.states = wInv.states ∧ (mInv.run wInv 7).2.trace = wInv.trace := by
  have h := run_invalid_state_aborts_entity mInv wInv 7 rfl
  exact ⟨h.2.1, h.2.2.1⟩

/-- C7: when no trigger in the machine's transition table succeeds for the
entity, the run changes no entity's state components and produces no hook or
swap events. -/
theorem run_no_trigger_no_change (m : StateMachine) (w : World) (e : Entity)
    (h : ∀ t ∈ m.transitions, t.check w e = false) :
    (m.run w e).2.states = w.states ∧ (m.run w e).2.trace = w.trace := by
  rcases hcur : currentOf m w e with _ | c
  · rcases currentOf_none_cases hcur with hf | ⟨c, rest, other, hf, hr⟩
    · rw [run_eq_noState hf]
      exact ⟨rfl, rfl⟩
    · rw [run_eq_multiple hf hr]
      exact ⟨rfl, rfl⟩
  · rcases hsel : selectIdx w e c m.transitions with _ | ⟨k, t⟩
    · rw [run_eq_noFire hcur hsel]
      exact ⟨rfl, rfl⟩
    · obtain ⟨pre, post, h1, _, _, hck, _⟩ := selectIdx_some_decomp hsel
      have hmem : t ∈ m.transitions := by
        rw [h1]
        exact List.mem_append_right _ (List.mem_cons_self _ _)
      rw [h t hmem] at hck
      exact Bool.noConfusion hck

/-- Witness for the non-firing theorem at the machine whose single trigger
never fires. -/
theorem run_no_trigger_no_change_witness :
    (mN.run wN 0).2.states = wN.states ∧ (mN.run wN 0).2.trace = wN.trace :=
  run_no_trigger_no_change mN wN 0 (by
    intro t ht
    have ht' : t = tN := by simpa [mN] using ht
    subst ht'
    rfl)

/-- C8: `remove_done_markers` removes the `Done` marker from every entity
that has one, unconditionally, and it runs after the transition step within
the tick (`tick` composes them in that order, following the system-set
configuration), so after the engine pass of a tick no entity carries a
`Done` marker — no marker attached during one tick persists into the next
tick, whether or not any transition consumed it. -/
theorem done_markers_cleared_each_tick (order : List Entity) (dw : DWorld)
    (w : World) (e : Entity) :
    (removeDoneMarkers w).dones e = none ∧
    (tick order dw).base.dones e = none ∧
    tick order dw = removeDoneMarkersD (transitionSys order dw) :=
  ⟨rfl, rfl, rfl⟩

/-- C9: the `on_event` trigger returns `None` on its first check after
initialization — draining every event pending at that point, even a matching
one — and on any later check whose previous check happened at stream prefix
`L`, it returns the most recent event received since (the last element of the
new suffix `Δ`, or `None` if no event arrived), draining the stream again. -/
theorem on_event_drains_then_latest {α : Type} (L Δ : List α) (s : OnEventState)
    (hrun : s.has_run = true) (hcur : s.cursor = L.length) :
    (onEventCheck L onEventInit).1 = none ∧
    (onEventCheck L onEventInit).2 = { has_run := true, cursor := L.length } ∧
    (onEventCheck (L ++ Δ) s).1 = Δ.getLast? ∧
    (onEventCheck (L ++ Δ) s).2 =
      { has_run := true, cursor := (L ++ Δ).length } := by
  refine ⟨rfl, rfl, ?_, ?_⟩
  · rw [onEventCheck, if_neg (by rw [hrun]; simp)]
    dsimp only
    rw [hcur, List.drop_left]
  · rw [onEventCheck, if_neg (by rw [hrun]; simp)]

/-- Witness for the `on_event` theorem: with events 1, 2 pending, the first
check returns nothing; after events 3, 4 arrive, the next check returns the
most recent one. -/
theorem on_event_drains_then_latest_witness :
    (onEventCheck ([1, 2] : List Nat) onEventInit).1 = none ∧
    (onEventCheck (([1, 2] : List Nat) ++ [3, 4])
      { has_run := true, cursor := 2 }).1 = some 4 := by
  have h := on_event_drains_then_latest ([1, 2] : List Nat) [3, 4]
    { has_run := true, cursor := 2 } rfl rfl
  exact ⟨h.1, by rw [h.2.2.1]; rfl⟩

/-- C10: in the `transition` pass over any distinct entity order and any
per-machine run effect, every entity carrying a machine has it moved out into
the borrowed list with a default stub left in its place for the duration of
the runs; afterwards the entity's processed machine (its entry in the run
phase's output list) is written back — unless the machine component is gone
from the entity when restoring, in which case the processed machine is
discarded — and this holds for every checked-out entity, so all other
machines are still restored. -/
theorem transition_checkout_restore
    (runEff : StateMachine → Entity → DWorld → StateMachine × DWorld)
    (order : List Entity) (dw : DWorld) (e : Entity) (m : StateMachine)
    (hnd : order.Nodup) (he : e ∈ order) (hm : dw.machines e = some m) :
    (e, m) ∈ (checkout order dw).1 ∧
    (checkout order dw).2.machines e = some StateMachine.default ∧
    ∃ m2, (e, m2) ∈
        (runAll runEff (initAll (checkout order dw).1) (checkout order dw).2).1 ∧
      (transitionWith runEff order dw).machines e =
        (if ((runAll runEff (initAll (checkout order dw).1)
              (checkout order dw).2).2.machines e).isSome
          then some m2 else none) := by
  obtain ⟨hmem, hstub⟩ := checkout_spec hnd he hm
  refine ⟨hmem, hstub, ?_⟩
  have hfst : e ∈ (runAll runEff (initAll (checkout order dw).1)
      (checkout order dw).2).1.map Prod.fst := by
    rw [runAll_fst, initAll_fst]
    exact List.mem_map_of_mem Prod.fst hmem
  obtain ⟨p, hp, hpe⟩ := List.mem_map.mp hfst
  obtain ⟨e2, m2⟩ := p
  simp only at hpe
  subst hpe
  refine ⟨m2, hp, ?_⟩
  have hnodup : ((runAll runEff (initAll (checkout order dw).1)
      (checkout order dw).2).1.map Prod.fst).Nodup := by
    rw [runAll_fst, initAll_fst]
    exact List.Nodup.sublist checkout_fst_sublist hnd
  have hres := @restore_mem e2 m2
    (runAll runEff (initAll (checkout order dw).1) (checkout order dw).2).1
    (runAll runEff (initAll (checkout order dw).1) (checkout order dw).2).2
    hnodup hp
  simp only [transitionWith]
  rw [hres]
  cases hms : ((runAll runEff (initAll (checkout order dw).1)
      (checkout order dw).2).2.machines e2) with
  | none => simp [hms]
  | some mOld => simp [hms]

/-- Witness for the checkout/restore theorem: the single machine of `dwW` is
replaced by the default stub during the pass. -/
theorem transition_checkout_restore_witness :
    (checkout [0] dwW).2.machines 0 = some StateMachine.default :=
  (transition_checkout_restore idRunEff [0] dwW 0 mW0
    (List.nodup_singleton 0) (List.mem_singleton.mpr rfl) rfl).2.1
